import Mathlib

/-!
# Logos Messaging API (liblogosdelivery): the C boundary and its example driver

A shallow embedding of

* `src/liblogosdelivery/liblogosdelivery.h`: the status codes and the command set;
* `src/liblogosdelivery/examples/logosdelivery_example.c`: `extract_json_field`,
  `event_callback` and the command sequence of `main`.

Memory is a `List Nat` of bytes.  A C string is the run of bytes of a memory block that
precedes its first NUL (`cstr`).  `size_t` is 64 bits wide: the one subtraction the source
performs on a `size_t` is taken modulo `2 ^ 64`.
-/

namespace LogosDelivery

/-! ## liblogosdelivery.h -/

/-- The header's `#define RET_OK 0`. -/
def RET_OK : Int := 0

/-- The header's `#define RET_ERR 1`. -/
def RET_ERR : Int := 1

/-- The header's `#define RET_MISSING_CALLBACK 2`. -/
def RET_MISSING_CALLBACK : Int := 2

/-- The functions declared by the header, in the order of their declaration. -/
inductive Command where
  | create_node
  | start_node
  | stop_node
  | destroy
  | subscribe
  | unsubscribe
  | send
  | set_event_callback
  deriving DecidableEq, Repr

/-! ## Bytes and the C library functions the example uses -/

/-- The bytes of a string literal (the literals of the source are ASCII). -/
def bytes (s : String) : List Nat := s.data.map Char.toNat

/-- The byte `'"'`. -/
def DQUOTE : Nat := 34

/-- The C string stored at the start of a memory block: the bytes before the first NUL. -/
def cstr (mem : List Nat) : List Nat := mem.takeWhile (fun b => b != 0)

/-- The number of values of `size_t`. -/
def SIZE_MOD : Nat := 2 ^ 64

/-- Whether `needle` is written at the very start of `hay`. -/
def startsWith : List Nat → List Nat → Bool
  | _, [] => true
  | [], _ :: _ => false
  | h :: hs, n :: ns => h == n && startsWith hs ns

/-- C `strstr` on string contents: the offset of the first occurrence of `needle`,
`none` standing for the NULL result. -/
def strstr : List Nat → List Nat → Option Nat
  | [], needle => if startsWith [] needle then some 0 else none
  | h :: hs, needle =>
    if startsWith (h :: hs) needle then some 0
    else (strstr hs needle).map (fun i => i + 1)

/-- C `strchr` on string contents, for a character other than NUL: the offset of the first
`c`, `none` standing for the NULL result. -/
def strchr : List Nat → Nat → Option Nat
  | [], _ => none
  | h :: hs, c => if h = c then some 0 else (strchr hs c).map (fun i => i + 1)

/-- C `memcpy(dst, src, n)`: the first `n` bytes of `dst` are replaced by those of `src`.
A call that stays within bounds has `n` at most the length of both blocks. -/
def memcpy (dst src : List Nat) (n : Nat) : List Nat := src.take n ++ dst.drop n

/-- The string `snprintf(searchStr, 256, "\"%s\":\"", field)` leaves in `searchStr`:
the formatted text, cut to the 255 bytes that fit before the terminator. -/
def searchStr (field : List Nat) : List Nat :=
  (DQUOTE :: (cstr field ++ [DQUOTE, 58, DQUOTE])).take 255

/-! ## logosdelivery_example.c: extract_json_field -/

/-- What a call of `extract_json_field` leaves behind. -/
structure Extracted where
  /-- Whether the call returned `buffer` (`true`) or NULL (`false`). -/
  ret : Bool
  /-- The memory of `buffer` after the call. -/
  buffer : List Nat
  /-- The number of bytes the call stored through `buffer`. -/
  stored : Nat
  deriving DecidableEq, Repr

/-- The copy length of `extract_json_field`: `len = end - start`, replaced by
`bufSize - 1` in `size_t` arithmetic when `len >= bufSize`. -/
def clampLen (len bufSize : Nat) : Nat :=
  if len ≥ bufSize then (bufSize + SIZE_MOD - 1) % SIZE_MOD else len

/-- The function `extract_json_field(json, field, buffer, bufSize)`. -/
def extract_json_field (json field buffer : List Nat) (bufSize : Nat) : Extracted :=
  let s := searchStr field
  match strstr (cstr json) s with
  | none => ⟨false, buffer, 0⟩
  | some i =>
    let start := (cstr json).drop (i + s.length)
    match strchr start DQUOTE with
    | none => ⟨false, buffer, 0⟩
    | some e =>
      let len := clampLen e bufSize
      ⟨true, (memcpy buffer start len).set len 0, len + 1⟩

/-! ## logosdelivery_example.c: event_callback -/

/-- The line `event_callback` prints.  A field is `none` when the local array printed
there was never written (the extraction of that field returned NULL). -/
inductive Report where
  | message_sent (requestId messageHash : Option (List Nat))
  | message_error (requestId messageHash error : Option (List Nat))
  | message_propagated (requestId messageHash : Option (List Nat))
  | unknown (eventType : List Nat)
  deriving DecidableEq, Repr

/-- The `if`/`else if` chain of `event_callback`. -/
inductive Branch where
  | message_sent
  | message_error
  | message_propagated
  | unknown
  deriving DecidableEq, Repr

/-- The branch of `event_callback` that printed a line. -/
def Report.branch : Report → Branch
  | Report.message_sent _ _ => Branch.message_sent
  | Report.message_error _ _ _ => Branch.message_error
  | Report.message_propagated _ _ => Branch.message_propagated
  | Report.unknown _ => Branch.unknown

/-- An uninitialised array of `n` bytes; `junk` is what its memory happens to hold. -/
def localArray (junk : Nat → Nat) (n : Nat) : List Nat := (List.range n).map junk

/-- A call `extract_json_field(eventJson, field, array, sizeof(array))` on the local array
`array[n]` named like the field, followed by the use of the array as a `%s` argument. -/
def extractLocal (junk : String → Nat → Nat) (eventJson : List Nat) (field : String)
    (n : Nat) : Option (List Nat) :=
  let r := extract_json_field eventJson (bytes field) (localArray (junk field) n) n
  if r.ret then some (cstr r.buffer) else none

/-- The function `event_callback(ret, msg, len, userData)`: the lines it prints.
`msg = none` is the NULL pointer, `alloc` tells whether `malloc(len + 1)` succeeded, and
`junk` gives the indeterminate initial contents of each array, by the name of the array. -/
def event_callback (ret : Int) (msg : Option (List Nat)) (len : Nat) (_userData : Nat)
    (alloc : Bool) (junk : String → Nat → Nat) : List Report :=
  if ret ≠ RET_OK ∨ msg = none ∨ len = 0 then []
  else if !alloc then []
  else
    let eventJson :=
      (memcpy (localArray (junk "eventJson") (len + 1)) (msg.getD []) len).set len 0
    let r := extract_json_field eventJson (bytes "eventType")
      (localArray (junk "eventType") 64) 64
    if !r.ret then []
    else
      let eventType := cstr r.buffer
      if eventType = bytes "message_sent" then
        [Report.message_sent (extractLocal junk eventJson "requestId" 128)
          (extractLocal junk eventJson "messageHash" 128)]
      else if eventType = bytes "message_error" then
        [Report.message_error (extractLocal junk eventJson "requestId" 128)
          (extractLocal junk eventJson "messageHash" 128)
          (extractLocal junk eventJson "error" 256)]
      else if eventType = bytes "message_propagated" then
        [Report.message_propagated (extractLocal junk eventJson "requestId" 128)
          (extractLocal junk eventJson "messageHash" 128)]
      else [Report.unknown eventType]

/-! ## logosdelivery_example.c: main -/

/-- The commands `main` issues, in order; `ctxNull` tells whether
`logosdelivery_create_node` returned NULL, in which case `main` returns at once. -/
def main_commands (ctxNull : Bool) : List Command :=
  if ctxNull then [Command.create_node]
  else [Command.create_node, Command.set_event_callback, Command.start_node,
    Command.subscribe, Command.send, Command.unsubscribe, Command.stop_node,
    Command.destroy]

/-! ## The lifecycle of a Context -/

/-- The lifecycle states of a Context; `NoContext` is the situation before `create`. -/
inductive Lifecycle where
  | NoContext
  | Created
  | Running
  | Stopped
  | Destroyed
  deriving DecidableEq, Repr

/-- Modelled from the spec: the lifecycle state machine of the library, whose implementation
is not among the C sources (the header only declares the commands).  The rows are those of
the transition table: create leads from no context to `Created`; start from `Created` or
`Stopped` to `Running`; subscribe, unsubscribe and send stay in `Running`; stop leads from
`Running` to `Stopped`; destroy from `Created`, `Running` or `Stopped` to `Destroyed`.
Installing the event callback is valid for the lifetime of the Context and changes no
state.  Every other pair is a state violation (`none`); in particular no command is
accepted in `Destroyed`. -/
def lifecycle_step : Lifecycle → Command → Option Lifecycle
  | Lifecycle.NoContext, Command.create_node => some Lifecycle.Created
  | Lifecycle.Created, Command.start_node => some Lifecycle.Running
  | Lifecycle.Stopped, Command.start_node => some Lifecycle.Running
  | Lifecycle.Running, Command.subscribe => some Lifecycle.Running
  | Lifecycle.Running, Command.unsubscribe => some Lifecycle.Running
  | Lifecycle.Running, Command.send => some Lifecycle.Running
  | Lifecycle.Running, Command.stop_node => some Lifecycle.Stopped
  | Lifecycle.Created, Command.destroy => some Lifecycle.Destroyed
  | Lifecycle.Running, Command.destroy => some Lifecycle.Destroyed
  | Lifecycle.Stopped, Command.destroy => some Lifecycle.Destroyed
  | Lifecycle.Created, Command.set_event_callback => some Lifecycle.Created
  | Lifecycle.Running, Command.set_event_callback => some Lifecycle.Running
  | Lifecycle.Stopped, Command.set_event_callback => some Lifecycle.Stopped
  | _, _ => none

/-- The states a command sequence passes through, one after each command, or `none` as
soon as a command is issued outside its valid state. -/
def lifecycle_trace : Lifecycle → List Command → Option (List Lifecycle)
  | _, [] => some []
  | s, c :: cs =>
    match lifecycle_step s c with
    | none => none
    | some s1 => (lifecycle_trace s1 cs).map (fun ss => s1 :: ss)

/-! ## Sample events -/

/-- The event `{"eventType":"message_sent","requestId":"r1","messageHash":"0xab"}`. -/
def sample_sent : List Nat :=
  bytes "\x7b\"eventType\":\"message_sent\",\"requestId\":\"r1\",\"messageHash\":\"0xab\"\x7d"

/-- The event `{"eventType":"peer_connected"}`, whose tag the handler does not know. -/
def sample_unknown : List Nat := bytes "\x7b\"eventType\":\"peer_connected\"\x7d"

/-- An event whose tag is 64 times the letter `x`: one byte more than `eventType[64]`
holds beside its terminator. -/
def sample_long : List Nat :=
  bytes "\x7b\"eventType\":\"" ++ (List.replicate 64 120 ++ bytes "\"\x7d")

/-- The stack and heap contents used with the samples: all zero. -/
def sample_junk : String → Nat → Nat := fun _ _ => 0

/-! ## Vocabulary of the statements -/

/-- The text `J` reads `a ++ P ++ r`, and this is the first place where `P` occurs in `J`:
every other occurrence starts at the same offset or later. -/
def FirstOcc (J P a r : List Nat) : Prop :=
  J = a ++ P ++ r ∧ ∀ a1 r1 : List Nat, J = a1 ++ P ++ r1 → a.length ≤ a1.length

/-- The pattern `"field":"` searched for: a double quote, the field name, a double quote,
a colon and a double quote. -/
def pattern (field : List Nat) : List Nat := DQUOTE :: (cstr field ++ [DQUOTE, 58, DQUOTE])

end LogosDelivery

namespace LogosDelivery

/-! ## The C library functions -/

theorem startsWith_iff (hay needle : List Nat) :
    startsWith hay needle = true ↔ ∃ t, hay = needle ++ t := by
  induction needle generalizing hay with
  | nil => simp [startsWith]
  | cons n ns ih =>
    cases hay with
    | nil => simp [startsWith]
    | cons h hs =>
      simp only [startsWith, Bool.and_eq_true, beq_iff_eq, ih, List.cons_append,
        List.cons.injEq]
      constructor
      · rintro ⟨rfl, t, rfl⟩
        exact ⟨t, rfl, rfl⟩
      · rintro ⟨t, rfl, rfl⟩
        exact ⟨rfl, t, rfl⟩

theorem strstr_none (hay needle : List Nat) :
    strstr hay needle = none ↔ ∀ a r : List Nat, hay ≠ a ++ needle ++ r := by
  induction hay with
  | nil =>
    simp only [strstr]
    constructor
    · intro h a r e
      have hs : startsWith [] needle = true := by
        rw [startsWith_iff]
        have e1 := e.symm
        simp only [List.append_eq_nil] at e1
        exact ⟨[], by simp [e1.1.2]⟩
      simp [hs] at h
    · intro h
      have hs : ¬ startsWith [] needle = true := by
        rw [startsWith_iff]
        rintro ⟨t, e⟩
        exact h [] t (by simpa using e)
      simp [hs]
  | cons x xs ih =>
    simp only [strstr]
    constructor
    · intro h a r e
      by_cases hs : startsWith (x :: xs) needle = true
      · simp [hs] at h
      · simp only [hs, Bool.false_eq_true, ↓reduceIte, Option.map_eq_none'] at h
        cases a with
        | nil =>
          apply hs
          rw [startsWith_iff]
          exact ⟨r, by simpa using e⟩
        | cons y ys =>
          simp only [List.cons_append, List.cons.injEq] at e
          exact (ih.mp h) ys r e.2
    · intro h
      have hs : ¬ startsWith (x :: xs) needle = true := by
        rw [startsWith_iff]
        rintro ⟨t, e⟩
        exact h [] t (by simpa using e)
      simp only [hs, Bool.false_eq_true, ↓reduceIte, Option.map_eq_none']
      apply ih.mpr
      intro a r e
      exact h (x :: a) r (by simp [e])

theorem strstr_some (hay needle : List Nat) (i : Nat) (h : strstr hay needle = some i) :
    ∃ a r : List Nat, hay = a ++ needle ++ r ∧ a.length = i ∧
      ∀ a1 r1 : List Nat, hay = a1 ++ needle ++ r1 → i ≤ a1.length := by
  induction hay generalizing i with
  | nil =>
    simp only [strstr] at h
    by_cases hs : startsWith [] needle = true
    · simp only [hs, ↓reduceIte, Option.some.injEq] at h
      obtain ⟨t, e⟩ := (startsWith_iff _ _).mp hs
      exact ⟨[], t, by simpa using e, by simpa using h, fun _ _ _ => by omega⟩
    · simp [hs] at h
  | cons x xs ih =>
    simp only [strstr] at h
    by_cases hs : startsWith (x :: xs) needle = true
    · simp only [hs, ↓reduceIte, Option.some.injEq] at h
      obtain ⟨t, e⟩ := (startsWith_iff _ _).mp hs
      exact ⟨[], t, by simpa using e, by simpa using h, fun _ _ _ => by omega⟩
    · simp only [hs, Bool.false_eq_true, ↓reduceIte, Option.map_eq_some'] at h
      obtain ⟨j, hj, rfl⟩ := h
      obtain ⟨a, r, e, hl, hmin⟩ := ih j hj
      refine ⟨x :: a, r, by simp [e], by simp [hl], ?_⟩
      intro a1 r1 e1
      cases a1 with
      | nil =>
        exfalso
        apply hs
        rw [startsWith_iff]
        exact ⟨r1, by simpa using e1⟩
      | cons y ys =>
        simp only [List.cons_append, List.cons.injEq] at e1
        have := hmin ys r1 e1.2
        simp only [List.length_cons]
        omega

theorem strchr_none (s : List Nat) (c : Nat) : strchr s c = none ↔ c ∉ s := by
  induction s with
  | nil => simp [strchr]
  | cons x xs ih =>
    simp only [strchr, List.mem_cons, not_or]
    by_cases hx : x = c
    · simp [hx]
    · simp only [hx, ↓reduceIte, Option.map_eq_none', ih, iff_and_self]
      intro _ e
      exact hx e.symm

theorem strchr_some (s : List Nat) (c e : Nat) (h : strchr s c = some e) :
    ∃ v t : List Nat, s = v ++ c :: t ∧ v.length = e ∧ c ∉ v := by
  induction s generalizing e with
  | nil => simp [strchr] at h
  | cons x xs ih =>
    simp only [strchr] at h
    by_cases hx : x = c
    · simp only [hx, ↓reduceIte, Option.some.injEq] at h
      exact ⟨[], xs, by simp [hx], by simpa using h, by simp⟩
    · simp only [hx, ↓reduceIte, Option.map_eq_some'] at h
      obtain ⟨j, hj, rfl⟩ := h
      obtain ⟨v, t, e1, hl, hv⟩ := ih j hj
      refine ⟨x :: v, t, by simp [e1], by simp [hl], ?_⟩
      simp only [List.mem_cons, not_or]
      exact ⟨fun e => hx e.symm, hv⟩

theorem strchr_of_split (v t : List Nat) (c : Nat) (hv : c ∉ v) :
    strchr (v ++ c :: t) c = some v.length := by
  induction v with
  | nil => simp [strchr]
  | cons x xs ih =>
    simp only [List.mem_cons, not_or] at hv
    have hx : ¬ x = c := fun e => hv.1 e.symm
    simp [strchr, hx, ih hv.2]

theorem strstr_of_first (J P a r : List Nat) (h : FirstOcc J P a r) :
    strstr J P = some a.length := by
  cases hs : strstr J P with
  | none => exact absurd h.1 ((strstr_none J P).mp hs a r)
  | some i =>
    obtain ⟨a0, r0, e0, hl, hmin⟩ := strstr_some J P i hs
    have h1 := hmin a r h.1
    have h2 := h.2 a0 r0 e0
    congr 1
    omega

theorem firstOcc_exists (J P a r : List Nat) (h : J = a ++ P ++ r) :
    ∃ a0 r0 : List Nat, FirstOcc J P a0 r0 ∧ a0.length ≤ a.length := by
  cases hs : strstr J P with
  | none => exact absurd h ((strstr_none J P).mp hs a r)
  | some i =>
    obtain ⟨a0, r0, e0, hl, hmin⟩ := strstr_some J P i hs
    refine ⟨a0, r0, ⟨e0, ?_⟩, ?_⟩
    · intro a1 r1 e1
      have := hmin a1 r1 e1
      omega
    · have := hmin a r h
      omega

theorem drop_after_occurrence (a P r : List Nat) :
    (a ++ P ++ r).drop (a.length + P.length) = r := by
  have h : a.length + P.length = (a ++ P).length := by simp
  rw [h, List.drop_left]

/-! ## C strings -/

theorem cstr_no_nul (mem : List Nat) : 0 ∉ cstr mem := by
  intro h
  have := List.mem_takeWhile_imp h
  simp at this

theorem cstr_of_no_nul (s : List Nat) (h : 0 ∉ s) : cstr s = s := by
  unfold cstr
  rw [List.takeWhile_eq_self_iff]
  intro x hx
  simp only [bne_iff_ne, ne_eq]
  rintro rfl
  exact h hx

theorem cstr_append_nul (s rest : List Nat) (h : 0 ∉ s) : cstr (s ++ 0 :: rest) = s := by
  induction s with
  | nil => simp [cstr]
  | cons x xs ih =>
    simp only [List.mem_cons, not_or] at h
    have hx : ¬ x = 0 := fun e => h.1 e.symm
    have := ih h.2
    simp only [cstr] at this ⊢
    have hb : (x != 0) = true := by simpa using hx
    simp [List.takeWhile, hb, this]

theorem cstr_idem (mem : List Nat) : cstr (cstr mem) = cstr mem :=
  cstr_of_no_nul _ (cstr_no_nul mem)

theorem cstr_terminated (s rest : List Nat) : cstr (s ++ 0 :: rest) = cstr s := by
  induction s with
  | nil => simp [cstr]
  | cons x xs ih =>
    simp only [cstr] at ih ⊢
    by_cases hx : x = 0
    · simp [List.takeWhile, hx]
    · simp [List.takeWhile, hx, ih]

/-! ## extract_json_field -/

theorem searchStr_eq_pattern (field : List Nat) (h : (cstr field).length ≤ 251) :
    searchStr field = pattern field := by
  unfold searchStr pattern
  apply List.take_of_length_le
  simp
  omega

theorem clampLen_eq_min (e bufSize : Nat) (h1 : 1 ≤ bufSize) (h2 : bufSize < SIZE_MOD) :
    clampLen e bufSize = min e (bufSize - 1) := by
  unfold clampLen SIZE_MOD at *
  split <;> omega

theorem clampLen_zero (e : Nat) : clampLen e 0 = SIZE_MOD - 1 := by
  simp [clampLen, SIZE_MOD]

theorem extract_congr (j1 j2 field buffer : List Nat) (bufSize : Nat)
    (h : cstr j1 = cstr j2) :
    extract_json_field j1 field buffer bufSize = extract_json_field j2 field buffer bufSize := by
  simp only [extract_json_field, h]

theorem extract_absent (json field buffer : List Nat) (bufSize : Nat)
    (h : ∀ a r : List Nat, cstr json ≠ a ++ searchStr field ++ r) :
    extract_json_field json field buffer bufSize = ⟨false, buffer, 0⟩ := by
  simp only [extract_json_field, (strstr_none _ _).mpr h]

theorem extract_unclosed (json field buffer a r : List Nat) (bufSize : Nat)
    (h : FirstOcc (cstr json) (searchStr field) a r) (hr : DQUOTE ∉ r) :
    extract_json_field json field buffer bufSize = ⟨false, buffer, 0⟩ := by
  have hd : (cstr json).drop (a.length + (searchStr field).length) = r := by
    rw [h.1, drop_after_occurrence]
  simp only [extract_json_field, strstr_of_first _ _ _ _ h, hd, (strchr_none _ _).mpr hr]

theorem extract_closed (json field buffer a v t : List Nat) (bufSize : Nat)
    (h : FirstOcc (cstr json) (searchStr field) a (v ++ DQUOTE :: t)) (hv : DQUOTE ∉ v) :
    extract_json_field json field buffer bufSize =
      ⟨true, (memcpy buffer (v ++ DQUOTE :: t) (clampLen v.length bufSize)).set
        (clampLen v.length bufSize) 0, clampLen v.length bufSize + 1⟩ := by
  have hd : (cstr json).drop (a.length + (searchStr field).length) = v ++ DQUOTE :: t := by
    rw [h.1, drop_after_occurrence]
  simp only [extract_json_field, strstr_of_first _ _ _ _ h, hd, strchr_of_split _ _ _ hv]

theorem memcpy_terminate (buffer src : List Nat) (n : Nat) (hn : n ≤ src.length)
    (hb : n < buffer.length) :
    (memcpy buffer src n).set n 0 = src.take n ++ 0 :: buffer.drop (n + 1) := by
  unfold memcpy
  have h2 : List.drop n buffer = buffer[n] :: List.drop (n + 1) buffer := by
    simp
  have h3 : (src.take n).length = n := by simp [hn]
  generalize hg : buffer[n] = g at h2
  rw [h2]
  generalize src.take n = w at h3
  subst h3
  simp

theorem buffer_after_copy (buffer v t : List Nat) (n : Nat) (hn : n ≤ v.length)
    (hb : n < buffer.length) :
    (memcpy buffer (v ++ DQUOTE :: t) n).set n 0 = v.take n ++ 0 :: buffer.drop (n + 1) := by
  rw [memcpy_terminate buffer _ n (by simp; omega) hb, List.take_append_of_le_length hn]

theorem firstOcc_of_strstr (J P a r : List Nat) (h : J = a ++ P ++ r)
    (hs : strstr J P = some a.length) : FirstOcc J P a r := by
  obtain ⟨a0, r0, _, _, hmin⟩ := strstr_some J P a.length hs
  exact ⟨h, hmin⟩

theorem no_nul_of_occurrence (mem a P v t : List Nat)
    (h : cstr mem = a ++ P ++ (v ++ DQUOTE :: t)) : 0 ∉ v := by
  intro hv
  apply cstr_no_nul mem
  rw [h]
  simp [hv]

/-- The three ways a call of `extract_json_field` can go. -/
theorem extract_trichotomy (J P : List Nat) :
    (∀ a r : List Nat, J ≠ a ++ P ++ r) ∨
    (∃ a r : List Nat, FirstOcc J P a r ∧ DQUOTE ∉ r) ∨
    (∃ a v t : List Nat, FirstOcc J P a (v ++ DQUOTE :: t) ∧ DQUOTE ∉ v) := by
  by_cases hex : ∃ a r : List Nat, J = a ++ P ++ r
  · obtain ⟨a, r, e⟩ := hex
    obtain ⟨a0, r0, h0, _⟩ := firstOcc_exists J P a r e
    right
    cases hc : strchr r0 DQUOTE with
    | none => exact Or.inl ⟨a0, r0, h0, (strchr_none _ _).mp hc⟩
    | some k =>
      obtain ⟨v, t, e1, _, hv⟩ := strchr_some r0 DQUOTE k hc
      subst e1
      exact Or.inr ⟨a0, v, t, h0, hv⟩
  · left
    intro a r e
    exact hex ⟨a, r, e⟩

/-- The successful call, for a buffer of at least one byte. -/
theorem extract_value (json field buffer a v t : List Nat) (bufSize : Nat)
    (hsize : 1 ≤ bufSize) (hmax : bufSize < SIZE_MOD) (hcap : bufSize ≤ buffer.length)
    (h : FirstOcc (cstr json) (searchStr field) a (v ++ DQUOTE :: t)) (hv : DQUOTE ∉ v) :
    extract_json_field json field buffer bufSize =
      ⟨true, v.take (min v.length (bufSize - 1)) ++
        0 :: buffer.drop (min v.length (bufSize - 1) + 1), min v.length (bufSize - 1) + 1⟩ := by
  rw [extract_closed json field buffer a v t bufSize h hv, clampLen_eq_min _ _ hsize hmax,
    buffer_after_copy buffer v t _ (Nat.min_le_left _ _) (by omega)]

theorem cstr_extract_value (json a P v t rest : List Nat) (n : Nat)
    (h : cstr json = a ++ P ++ (v ++ DQUOTE :: t)) :
    cstr (v.take n ++ 0 :: rest) = v.take n := by
  apply cstr_append_nul
  intro h0
  exact no_nul_of_occurrence json a P v t h (List.mem_of_mem_take h0)

/-! ## The claims -/

/-- C2: the three status codes have the values `RET_OK = 0`, `RET_ERR = 1` and
`RET_MISSING_CALLBACK = 2`, and they are pairwise distinct: the missing-callback code is
neither the success code nor the generic error code. -/
theorem status_codes_distinct :
    RET_OK = 0 ∧ RET_ERR = 1 ∧ RET_MISSING_CALLBACK = 2 ∧
    RET_OK ≠ RET_ERR ∧ RET_OK ≠ RET_MISSING_CALLBACK ∧ RET_ERR ≠ RET_MISSING_CALLBACK := by
  decide

/-- C3: the commands `main` issues when `create_node` returns a context are, in order,
create_node, set_event_callback, start_node, subscribe, send, unsubscribe, stop_node,
destroy; the lifecycle state machine accepts every one of them, passing through Created,
Created, Running, Running, Running, Running, Stopped and Destroyed (so subscribe, send and
unsubscribe are issued in Running only); destroy occurs exactly once, as the last command,
and the final state is Destroyed. -/
theorem main_sequence_accepted :
    main_commands false =
      [Command.create_node, Command.set_event_callback, Command.start_node,
        Command.subscribe, Command.send, Command.unsubscribe, Command.stop_node,
        Command.destroy] ∧
    lifecycle_trace Lifecycle.NoContext (main_commands false) =
      some [Lifecycle.Created, Lifecycle.Created, Lifecycle.Running, Lifecycle.Running,
        Lifecycle.Running, Lifecycle.Running, Lifecycle.Stopped, Lifecycle.Destroyed] ∧
    (main_commands false).count Command.destroy = 1 ∧
    (main_commands false).getLast? = some Command.destroy ∧
    (∀ k : Nat, k ≤ (main_commands false).length →
      (lifecycle_trace Lifecycle.NoContext ((main_commands false).take k)).isSome = true) := by
  refine ⟨by decide, by decide, by decide, by decide, ?_⟩
  intro k hk
  have hlen : (main_commands false).length = 8 := by decide
  rw [hlen] at hk
  interval_cases k <;> decide

/-- C8: at `bufSize = 0` the clamp `len = bufSize - 1` wraps around in `size_t`
arithmetic: on the text `{"a":"b"}` and the field `a` the copy length is `2 ^ 64 - 1`,
and the call stores `2 ^ 64` bytes through a buffer of size 0. -/
theorem extract_json_field_zero_size_overrun :
    clampLen 1 0 = 2 ^ 64 - 1 ∧
    (extract_json_field (bytes "\x7b\"a\":\"b\"\x7d") (bytes "a") [] 0).ret = true ∧
    (extract_json_field (bytes "\x7b\"a\":\"b\"\x7d") (bytes "a") [] 0).stored = 2 ^ 64 ∧
    ¬ (extract_json_field (bytes "\x7b\"a\":\"b\"\x7d") (bytes "a") [] 0).stored ≤ 0 := by
  refine ⟨by decide, by decide, by decide, by decide⟩

/-- C7: for a field of at most 251 bytes and a buffer of `bufSize >= 1` bytes, with `P`
the pattern `"field":"`: the call returns NULL and leaves the buffer unchanged exactly
when `P` does not occur in the text or no double quote follows its first occurrence;
otherwise, `V` being the bytes between the first occurrence of `P` and the next double
quote, it returns the buffer holding the first `min |V| (bufSize - 1)` bytes of `V` and
a NUL, the rest of the buffer untouched.  The returned string has at most `bufSize - 1`
bytes, starts `V`, and is `V` when `|V| < bufSize`. -/
theorem extract_json_field_exact (json field buffer : List Nat) (bufSize : Nat)
    (hfield : (cstr field).length ≤ 251) (hsize : 1 ≤ bufSize) (hmax : bufSize < SIZE_MOD)
    (hcap : bufSize ≤ buffer.length) :
    (((extract_json_field json field buffer bufSize).ret = false ∧
        (extract_json_field json field buffer bufSize).buffer = buffer) ↔
      ((¬ ∃ a r : List Nat, cstr json = a ++ pattern field ++ r) ∨
        ∃ a r : List Nat, FirstOcc (cstr json) (pattern field) a r ∧ DQUOTE ∉ r)) ∧
    ((extract_json_field json field buffer bufSize).ret = false →
      (extract_json_field json field buffer bufSize).buffer = buffer) ∧
    ((extract_json_field json field buffer bufSize).ret = true →
      ∃ a V t : List Nat,
        FirstOcc (cstr json) (pattern field) a (V ++ DQUOTE :: t) ∧ DQUOTE ∉ V) ∧
    (∀ a V t : List Nat,
      FirstOcc (cstr json) (pattern field) a (V ++ DQUOTE :: t) → DQUOTE ∉ V →
        (extract_json_field json field buffer bufSize).ret = true ∧
        (extract_json_field json field buffer bufSize).buffer =
          V.take (min V.length (bufSize - 1)) ++
            0 :: buffer.drop (min V.length (bufSize - 1) + 1) ∧
        cstr (extract_json_field json field buffer bufSize).buffer =
          V.take (min V.length (bufSize - 1)) ∧
        (cstr (extract_json_field json field buffer bufSize).buffer).length ≤ bufSize - 1 ∧
        cstr (extract_json_field json field buffer bufSize).buffer <+: V ∧
        (V.length < bufSize →
          cstr (extract_json_field json field buffer bufSize).buffer = V)) := by
  rw [← searchStr_eq_pattern field hfield]
  have hclosed : ∀ a V t : List Nat,
      FirstOcc (cstr json) (searchStr field) a (V ++ DQUOTE :: t) → DQUOTE ∉ V →
        (extract_json_field json field buffer bufSize).ret = true ∧
        (extract_json_field json field buffer bufSize).buffer =
          V.take (min V.length (bufSize - 1)) ++
            0 :: buffer.drop (min V.length (bufSize - 1) + 1) ∧
        cstr (extract_json_field json field buffer bufSize).buffer =
          V.take (min V.length (bufSize - 1)) := by
    intro a V t h hV
    rw [extract_value json field buffer a V t bufSize hsize hmax hcap h hV]
    exact ⟨rfl, rfl, cstr_extract_value json a _ V t _ _ h.1⟩
  have hnull : ((¬ ∃ a r : List Nat, cstr json = a ++ searchStr field ++ r) ∨
      ∃ a r : List Nat, FirstOcc (cstr json) (searchStr field) a r ∧ DQUOTE ∉ r) →
      extract_json_field json field buffer bufSize = ⟨false, buffer, 0⟩ := by
    rintro (h | ⟨a, r, h, hr⟩)
    · exact extract_absent json field buffer bufSize (fun a r e => h ⟨a, r, e⟩)
    · exact extract_unclosed json field buffer a r bufSize h hr
  refine ⟨⟨?_, ?_⟩, ?_, ?_, ?_⟩
  · rintro ⟨hret, _⟩
    rcases extract_trichotomy (cstr json) (searchStr field) with h | h | ⟨a, V, t, h, hV⟩
    · exact Or.inl (fun ⟨a, r, e⟩ => h a r e)
    · exact Or.inr h
    · rw [(hclosed a V t h hV).1] at hret
      exact absurd hret (by decide)
  · intro h
    rw [hnull h]
    exact ⟨rfl, rfl⟩
  · intro hret
    rcases extract_trichotomy (cstr json) (searchStr field) with h | h | ⟨a, V, t, h, hV⟩
    · rw [hnull (Or.inl (fun ⟨a, r, e⟩ => h a r e))]
    · rw [hnull (Or.inr h)]
    · rw [(hclosed a V t h hV).2.1]
      rw [(hclosed a V t h hV).1] at hret
      exact absurd hret (by decide)
  · intro hret
    rcases extract_trichotomy (cstr json) (searchStr field) with h | h | h
    · rw [hnull (Or.inl (fun ⟨a, r, e⟩ => h a r e))] at hret
      exact absurd hret (by simp)
    · rw [hnull (Or.inr h)] at hret
      exact absurd hret (by simp)
    · exact h
  · intro a V t h hV
    obtain ⟨h1, h2, h3⟩ := hclosed a V t h hV
    refine ⟨h1, h2, h3, ?_, ?_, ?_⟩
    · rw [h3, List.length_take]
      omega
    · rw [h3]
      exact List.take_prefix _ _
    · intro hlt
      rw [h3]
      apply List.take_of_length_le
      omega

/-- C7 at the text `{"mode":"Core"}`, the field `mode` and a buffer of 3 bytes. -/
theorem extract_json_field_exact_witness :
    ((cstr (bytes "mode")).length ≤ 251 ∧ 1 ≤ 3 ∧ 3 < SIZE_MOD ∧
      3 ≤ (List.replicate 3 7).length) ∧
    cstr (extract_json_field (bytes "\x7b\"mode\":\"Core\"\x7d") (bytes "mode")
      (List.replicate 3 7) 3).buffer = bytes "Co" :=
  ⟨⟨by decide, by decide, by decide, by decide⟩,
    ((extract_json_field_exact (bytes "\x7b\"mode\":\"Core\"\x7d") (bytes "mode")
      (List.replicate 3 7) 3 (by decide) (by decide) (by decide) (by decide)).2.2.2
        [123] (bytes "Core") [125]
        (firstOcc_of_strstr _ _ _ _ (by decide) (by decide)) (by decide)).2.2.1⟩

theorem localArray_length (g : Nat → Nat) (n : Nat) : (localArray g n).length = n := by
  simp [localArray]

theorem eventJson_cstr (g : Nat → Nat) (m : List Nat) (len : Nat) (h : len ≤ m.length) :
    cstr ((memcpy (localArray g (len + 1)) m len).set len 0) = cstr (m.take len) := by
  rw [memcpy_terminate _ m len h (by rw [localArray_length]; omega), cstr_terminated]

theorem searchStr_eventType : searchStr (bytes "eventType") = pattern (bytes "eventType") :=
  searchStr_eq_pattern _ (by decide)

theorem extractLocal_congr (junk : String → Nat → Nat) (j1 j2 : List Nat) (field : String)
    (n : Nat) (h : cstr j1 = cstr j2) :
    extractLocal junk j1 field n = extractLocal junk j2 field n := by
  simp only [extractLocal, extract_congr j1 j2 _ _ _ h]

theorem take_eq_short (v lit : List Nat) (n : Nat) (h : lit.length < n) :
    v.take n = lit ↔ v = lit := by
  constructor
  · intro e
    have hl : (v.take n).length = lit.length := by rw [e]
    rw [List.length_take] at hl
    have hv : v.length ≤ n := by omega
    rw [List.take_of_length_le hv] at e
    exact e
  · rintro rfl
    exact List.take_of_length_le (by omega)

/-- An accepted call in whose text the `eventType` value is `v`: the `if` chain is
decided by the first 63 bytes of `v`. -/
theorem event_callback_typed (m : List Nat) (len userData : Nat)
    (junk : String → Nat → Nat) (a v t : List Nat) (hlen : 0 < len) (hmsg : len ≤ m.length)
    (hocc : FirstOcc (cstr (m.take len)) (pattern (bytes "eventType")) a (v ++ DQUOTE :: t))
    (hv : DQUOTE ∉ v) :
    event_callback RET_OK (some m) len userData true junk =
      if v.take 63 = bytes "message_sent" then
        [Report.message_sent (extractLocal junk (m.take len) "requestId" 128)
          (extractLocal junk (m.take len) "messageHash" 128)]
      else if v.take 63 = bytes "message_error" then
        [Report.message_error (extractLocal junk (m.take len) "requestId" 128)
          (extractLocal junk (m.take len) "messageHash" 128)
          (extractLocal junk (m.take len) "error" 256)]
      else if v.take 63 = bytes "message_propagated" then
        [Report.message_propagated (extractLocal junk (m.take len) "requestId" 128)
          (extractLocal junk (m.take len) "messageHash" 128)]
      else [Report.unknown (v.take 63)] := by
  rw [← searchStr_eventType] at hocc
  have hcj := eventJson_cstr (junk "eventJson") m len hmsg
  have hE : extract_json_field
      ((memcpy (localArray (junk "eventJson") (len + 1)) m len).set len 0)
      (bytes "eventType") (localArray (junk "eventType") 64) 64 =
      ⟨true, v.take (min v.length 63) ++
        0 :: (localArray (junk "eventType") 64).drop (min v.length 63 + 1),
        min v.length 63 + 1⟩ := by
    rw [extract_congr _ (m.take len) _ _ _ hcj]
    exact extract_value _ _ _ a v t 64 (by decide) (by decide)
      (by rw [localArray_length]) hocc hv
  have hT : v.take (min v.length 63) = v.take 63 := by
    rcases Nat.le_total v.length 63 with h | h
    · rw [Nat.min_eq_left h, List.take_of_length_le h, List.take_of_length_le (Nat.le_refl _)]
    · rw [Nat.min_eq_right h]
  have hC := cstr_extract_value (m.take len) a _ v t
    ((localArray (junk "eventType") 64).drop (min v.length 63 + 1)) (min v.length 63) hocc.1
  rw [hT] at hC
  have hl : ¬ len = 0 := by omega
  simp only [event_callback, Option.getD_some, hE, hT, hC,
    extractLocal_congr junk _ (m.take len) _ _ hcj]
  simp [hl]

theorem tag_facts :
    bytes "message_sent" ≠ bytes "message_error" ∧
    bytes "message_sent" ≠ bytes "message_propagated" ∧
    bytes "message_error" ≠ bytes "message_propagated" ∧
    (bytes "message_sent").length = 12 ∧
    (bytes "message_error").length = 13 ∧
    (bytes "message_propagated").length = 18 := by
  decide

/-- The line an accepted call prints when `eventType` can be extracted, and its branch. -/
theorem event_callback_typed_branch (m : List Nat) (len userData : Nat)
    (junk : String → Nat → Nat) (a v t : List Nat) (hlen : 0 < len) (hmsg : len ≤ m.length)
    (hocc : FirstOcc (cstr (m.take len)) (pattern (bytes "eventType")) a (v ++ DQUOTE :: t))
    (hv : DQUOTE ∉ v) :
    ∃ r : Report, event_callback RET_OK (some m) len userData true junk = [r] ∧
      (r.branch = Branch.message_sent ↔ v = bytes "message_sent") ∧
      (r.branch = Branch.message_error ↔ v = bytes "message_error") ∧
      (r.branch = Branch.message_propagated ↔ v = bytes "message_propagated") ∧
      (r.branch = Branch.unknown → r = Report.unknown (v.take 63)) := by
  obtain ⟨d1, d2, d3, _, _, _⟩ := tag_facts
  rw [event_callback_typed m len userData junk a v t hlen hmsg hocc hv]
  simp only [take_eq_short v _ 63 (show (bytes "message_sent").length < 63 by decide),
    take_eq_short v _ 63 (show (bytes "message_error").length < 63 by decide),
    take_eq_short v _ 63 (show (bytes "message_propagated").length < 63 by decide)]
  by_cases h1 : v = bytes "message_sent"
  · rw [if_pos h1]
    refine ⟨_, rfl, ?_⟩
    simp only [Report.branch, h1]
    simp [d1, d2]
  · rw [if_neg h1]
    by_cases h2 : v = bytes "message_error"
    · rw [if_pos h2]
      refine ⟨_, rfl, ?_⟩
      simp only [Report.branch, h2]
      simp [d1.symm, d3]
    · rw [if_neg h2]
      by_cases h3 : v = bytes "message_propagated"
      · rw [if_pos h3]
        refine ⟨_, rfl, ?_⟩
        simp only [Report.branch, h3]
        simp [d2.symm, d3.symm]
      · rw [if_neg h3]
        refine ⟨_, rfl, ?_⟩
        simp [Report.branch, h1, h2, h3]

/-- C1: for an accepted event (status `RET_OK`, a message of `len > 0` bytes, and an
`eventType` value `v` found in its text) the handler prints one line, from exactly one
of its four branches, decided by the whole of `v`: message_sent iff `v` is
`message_sent`, message_error iff `v` is `message_error`, message_propagated iff `v` is
`message_propagated`, and the catch-all branch for every other `v`, in particular for
every `v` longer than 63 bytes and for the empty `v`. -/
theorem event_callback_branch_by_full_tag (m : List Nat) (len userData : Nat)
    (junk : String → Nat → Nat) (a v t : List Nat) (hlen : 0 < len) (hmsg : len ≤ m.length)
    (hocc : FirstOcc (cstr (m.take len)) (pattern (bytes "eventType")) a (v ++ DQUOTE :: t))
    (hv : DQUOTE ∉ v) :
    ∃ r : Report, event_callback RET_OK (some m) len userData true junk = [r] ∧
      (r.branch = Branch.message_sent ↔ v = bytes "message_sent") ∧
      (r.branch = Branch.message_error ↔ v = bytes "message_error") ∧
      (r.branch = Branch.message_propagated ↔ v = bytes "message_propagated") ∧
      (r.branch = Branch.unknown ↔
        (v ≠ bytes "message_sent" ∧ v ≠ bytes "message_error" ∧
          v ≠ bytes "message_propagated")) ∧
      (63 < v.length → r.branch = Branch.unknown) ∧
      (v = [] → r.branch = Branch.unknown) := by
  obtain ⟨_, _, _, l1, l2, l3⟩ := tag_facts
  obtain ⟨r, hr, b1, b2, b3, _⟩ :=
    event_callback_typed_branch m len userData junk a v t hlen hmsg hocc hv
  have hu : r.branch = Branch.unknown ↔
      (v ≠ bytes "message_sent" ∧ v ≠ bytes "message_error" ∧
        v ≠ bytes "message_propagated") := by
    simp only [ne_eq, ← b1, ← b2, ← b3]
    cases r.branch <;> simp
  refine ⟨r, hr, b1, b2, b3, hu, ?_, ?_⟩
  · intro hlong
    rw [hu]
    refine ⟨?_, ?_, ?_⟩ <;> intro e <;> rw [e] at hlong <;> omega
  · intro hnil
    rw [hu]
    refine ⟨?_, ?_, ?_⟩ <;> intro e <;> rw [hnil] at e <;>
      exact absurd (congrArg List.length e) (by simp [l1, l2, l3])

/-- C5, amended: for an accepted event whose `eventType` value `v` is none of
message_sent, message_error, message_propagated, the string reported as the unknown
event type is the first 63 bytes of `v`; it is `v` itself when `v` has at most 63 bytes. -/
theorem event_callback_unknown_first_63 (m : List Nat) (len userData : Nat)
    (junk : String → Nat → Nat) (a v t : List Nat) (hlen : 0 < len) (hmsg : len ≤ m.length)
    (hocc : FirstOcc (cstr (m.take len)) (pattern (bytes "eventType")) a (v ++ DQUOTE :: t))
    (hv : DQUOTE ∉ v) (h1 : v ≠ bytes "message_sent") (h2 : v ≠ bytes "message_error")
    (h3 : v ≠ bytes "message_propagated") :
    event_callback RET_OK (some m) len userData true junk = [Report.unknown (v.take 63)] ∧
    (v.length ≤ 63 →
      event_callback RET_OK (some m) len userData true junk = [Report.unknown v]) := by
  obtain ⟨r, hr, b1, b2, b3, bu⟩ :=
    event_callback_typed_branch m len userData junk a v t hlen hmsg hocc hv
  have hb : r.branch = Branch.unknown := by
    have n1 := mt b1.mp h1
    have n2 := mt b2.mp h2
    have n3 := mt b3.mp h3
    revert n1 n2 n3
    cases r.branch <;> simp
  rw [hr, bu hb]
  refine ⟨rfl, ?_⟩
  intro hle
  rw [List.take_of_length_le hle]

/-- C1 at the event `{"eventType":"message_sent","requestId":"r1","messageHash":"0xab"}`:
the handler takes the message_sent branch. -/
theorem event_callback_branch_by_full_tag_witness :
    (0 < sample_sent.length ∧ sample_sent.length ≤ sample_sent.length ∧
      DQUOTE ∉ bytes "message_sent") ∧
    ∃ r : Report,
      event_callback RET_OK (some sample_sent) sample_sent.length 0 true sample_junk = [r] ∧
      r.branch = Branch.message_sent :=
  ⟨⟨by decide, by decide, by decide⟩,
    (event_callback_branch_by_full_tag sample_sent sample_sent.length 0 sample_junk
      [123] (bytes "message_sent") (bytes ",\"requestId\":\"r1\",\"messageHash\":\"0xab\"\x7d")
      (by decide) (by decide) (firstOcc_of_strstr _ _ _ _ (by decide) (by decide))
      (by decide)).imp (fun _ h => ⟨h.1, h.2.1.mpr rfl⟩)⟩

/-- C5, as stated, fails: the event whose `eventType` value is 64 times the letter `x`
is accepted and its tag is none of the three known ones, and the string reported as the
unknown event type is 63 times the letter `x`, which is not the value. -/
theorem event_callback_long_tag_counterexample :
    FirstOcc (cstr (sample_long.take sample_long.length)) (pattern (bytes "eventType"))
      [123] (List.replicate 64 120 ++ DQUOTE :: [125]) ∧
    DQUOTE ∉ List.replicate 64 120 ∧
    List.replicate 64 120 ≠ bytes "message_sent" ∧
    List.replicate 64 120 ≠ bytes "message_error" ∧
    List.replicate 64 120 ≠ bytes "message_propagated" ∧
    event_callback RET_OK (some sample_long) sample_long.length 0 true sample_junk =
      [Report.unknown (List.replicate 63 120)] ∧
    List.replicate 63 120 ≠ List.replicate 64 120 := by
  refine ⟨firstOcc_of_strstr _ _ _ _ (by decide) (by decide), by decide, by decide,
    by decide, by decide, ?_, by decide⟩
  rw [event_callback_typed sample_long sample_long.length 0 sample_junk [123]
    (List.replicate 64 120) [125] (by decide) (by decide)
    (firstOcc_of_strstr _ _ _ _ (by decide) (by decide)) (by decide)]
  decide

/-- C5, amended, at the event `{"eventType":"peer_connected"}`: the tag is reported
as it is. -/
theorem event_callback_unknown_first_63_witness :
    (0 < sample_unknown.length ∧ sample_unknown.length ≤ sample_unknown.length ∧
      DQUOTE ∉ bytes "peer_connected" ∧ bytes "peer_connected" ≠ bytes "message_sent" ∧
      bytes "peer_connected" ≠ bytes "message_error" ∧
      bytes "peer_connected" ≠ bytes "message_propagated") ∧
    event_callback RET_OK (some sample_unknown) sample_unknown.length 0 true sample_junk =
      [Report.unknown (bytes "peer_connected")] :=
  ⟨⟨by decide, by decide, by decide, by decide, by decide, by decide⟩,
    (event_callback_unknown_first_63 sample_unknown sample_unknown.length 0 sample_junk
      [123] (bytes "peer_connected") [125] (by decide) (by decide)
      (firstOcc_of_strstr _ _ _ _ (by decide) (by decide)) (by decide) (by decide)
      (by decide) (by decide)).2 (by decide)⟩

/-- For a buffer of at least one byte the clamp holds: the call stores at most `bufSize`
bytes. -/
theorem extract_json_field_stored_le (json field buffer : List Nat) (bufSize : Nat)
    (hsize : 1 ≤ bufSize) (hmax : bufSize < SIZE_MOD) :
    (extract_json_field json field buffer bufSize).stored ≤ bufSize := by
  rcases extract_trichotomy (cstr json) (searchStr field) with
    h | ⟨a, r, h, hr⟩ | ⟨a, v, t, h, hv⟩
  · rw [extract_absent json field buffer bufSize h]
    exact Nat.zero_le _
  · rw [extract_unclosed json field buffer a r bufSize h hr]
    exact Nat.zero_le _
  · rw [extract_closed json field buffer a v t bufSize h hv, clampLen_eq_min _ _ hsize hmax]
    show min v.length (bufSize - 1) + 1 ≤ bufSize
    omega

end LogosDelivery
